import Mathlib

/-!
Shallow embedding of `internal/tx_parser/raydium.go` (Raydium swap decoder).

Conventions of the embedding:
* A Solana public key is its 32-byte value, modelled as `List Nat` (each entry
  a byte value).  `PublicKey{}` (the zero value) is `zeroPubKey`.
* Go slice indexing `xs[i]` can panic when `i` is out of range; every function
  that performs such an indexing returns an `Option`, where `none` models the
  Go runtime panic.  Fallible functions that return `(..., error)` in Go are
  modelled with `Except TxError`; a function that can both panic and fail
  returns `Option (Except TxError _)`.
* `binary.LittleEndian.Uint64` on a byte slice is `leUint64`.
-/

/-- A 32-byte Solana account identifier (`solana.PublicKey`). -/
abbrev PubKey := List Nat

/-- The Go zero value `solana.PublicKey{}` (all 32 bytes zero). -/
def zeroPubKey : PubKey := List.replicate 32 0

/-- `solana.TokenProgramID` — base58 `TokenkegQfeZyiNwAJbNbGKPFXCWuBvf9Ss623VQ5DA`. -/
def tokenProgramID : PubKey :=
  [6, 221, 246, 225, 215, 101, 161, 147, 217, 203, 225, 70, 206, 235, 121, 172,
   28, 180, 133, 237, 95, 91, 55, 145, 58, 140, 245, 133, 126, 255, 0, 169]

/-- `solana.Token2022ProgramID` — base58 `TokenzQdBNbLqP5VEhdkAS6EPFLC1PHnBqCXEpPxuEb`. -/
def token2022ProgramID : PubKey :=
  [6, 221, 246, 225, 238, 117, 143, 222, 24, 66, 93, 188, 228, 108, 205, 218,
   182, 26, 252, 77, 131, 185, 13, 39, 254, 189, 249, 40, 216, 161, 139, 252]

/-- `solana.CompiledInstruction`: program index, account references, raw data. -/
structure CompiledInstruction where
  programIDIndex : Nat
  accounts : List Nat
  data : List Nat
deriving DecidableEq, Repr

/-- One entry of `Meta.PreTokenBalances` / `Meta.PostTokenBalances`. -/
structure TokenBalance where
  accountIndex : Nat
  mint : PubKey
  owner : PubKey
deriving DecidableEq, Repr

/-- One group of `Meta.InnerInstructions`: the outer-instruction tag and the
nested instructions it spawned. -/
structure InnerInstructionSet where
  index : Nat
  instructions : List CompiledInstruction
deriving DecidableEq, Repr

/-- The transaction execution metadata consumed by the decoder. -/
structure TransactionMeta where
  innerInstructions : List InnerInstructionSet
  preTokenBalances : List TokenBalance
  postTokenBalances : List TokenBalance
deriving DecidableEq, Repr

/-- `TransactionContext`: account-key table, metadata, signer list and the
decimals lookup (`ctx.GetMintDecimals`). -/
structure TransactionContext where
  accountKeys : List PubKey
  meta : TransactionMeta
  signers : List PubKey
  getMintDecimals : PubKey → Nat

/-- `TokenInfo`: mint, raw amount, decimals. -/
structure TokenInfo where
  mint : PubKey
  amount : Nat
  decimals : Nat
deriving DecidableEq, Repr, Inhabited

/-- The protocol tag of a swap (`SwapTypeRaydium` is the only one used here). -/
inductive SwapType where
  | raydium
deriving DecidableEq, Repr

/-- `SwapInfo`: protocol tag plus the two oriented legs. -/
structure SwapInfo where
  protocol : SwapType
  tokenIn : TokenInfo
  tokenOut : TokenInfo
deriving DecidableEq, Repr

/-- The error values produced with `fmt.Errorf` in the source, as tags. -/
inductive TxError where
  | malformedTransfer
  | malformedTransferChecked
  | mintUnresolved
  | degenerateSwap
  | noSwapsFound
deriving DecidableEq, Repr

/-- `binary.LittleEndian.Uint64`: little-endian value of the first 8 bytes. -/
def leUint64 (bs : List Nat) : Nat :=
  (bs.take 8).foldr (fun b acc => b + 256 * acc) 0

/-- `isRaydiumTransfer` (raydium.go:73): plain-transfer classifier.
`none` models the Go panic when `ProgramIDIndex` is outside `accountKeys`. -/
def isRaydiumTransfer (instr : CompiledInstruction) (accountKeys : List PubKey) :
    Option Bool :=
  if instr.accounts.length < 3 ∨ instr.data.length < 9 then
    some false
  else
    match accountKeys[instr.programIDIndex]? with
    | none => none
    | some progID =>
      if progID ≠ tokenProgramID then some false
      else some (decide (instr.data.getD 0 0 = 3))

/-- `isRaydiumTransferChecked` (raydium.go:87): checked-transfer classifier. -/
def isRaydiumTransferChecked (instr : CompiledInstruction) (accountKeys : List PubKey) :
    Option Bool :=
  if instr.accounts.length < 4 ∨ instr.data.length < 9 then
    some false
  else
    match accountKeys[instr.programIDIndex]? with
    | none => none
    | some progID =>
      if progID ≠ tokenProgramID ∧ progID ≠ token2022ProgramID then some false
      else some (decide (instr.data.getD 0 0 = 12))

/-- The loop body of `findTokenMint` (raydium.go:146): scan balances in order,
return the mint of the first one whose account key matches source or dest.
`none` models the panic of `ctx.AccountKeys[balance.AccountIndex]`. -/
def findTokenMintLoop (source dest : PubKey) (accountKeys : List PubKey) :
    List TokenBalance → Option PubKey
  | [] => some zeroPubKey
  | b :: rest =>
    match accountKeys[b.accountIndex]? with
    | none => none
    | some accKey =>
      if accKey = source ∨ accKey = dest then some b.mint
      else findTokenMintLoop source dest accountKeys rest

/-- `findTokenMint` (raydium.go:142): scan pre- then post-token balances;
`some zeroPubKey` is the not-found indicator (`solana.PublicKey{}`). -/
def findTokenMint (source dest : PubKey) (ctx : TransactionContext) : Option PubKey :=
  findTokenMintLoop source dest ctx.accountKeys
    (ctx.meta.preTokenBalances ++ ctx.meta.postTokenBalances)

/-- `processTransfer` (raydium.go:101).  Outer `none` = Go panic (account
reference or account-table index out of range); `Except.error` = returned
Go error. -/
def processTransfer (instr : CompiledInstruction) (ctx : TransactionContext) :
    Option (Except TxError TokenInfo) :=
  if instr.data.length < 9 then some (.error .malformedTransfer)
  else
    match instr.accounts[0]? with
    | none => none
    | some a0 =>
    match ctx.accountKeys[a0]? with
    | none => none
    | some sourceAcc =>
    match instr.accounts[1]? with
    | none => none
    | some a1 =>
    match ctx.accountKeys[a1]? with
    | none => none
    | some destAcc =>
    match findTokenMint sourceAcc destAcc ctx with
    | none => none
    | some mint =>
      if mint = zeroPubKey then some (.error .mintUnresolved)
      else some (.ok { mint := mint, amount := leUint64 (instr.data.drop 1),
                       decimals := ctx.getMintDecimals mint })

/-- `processTransferChecked` (raydium.go:126): the mint is read directly from
the account table at the instruction's second account reference. -/
def processTransferChecked (instr : CompiledInstruction) (ctx : TransactionContext) :
    Option (Except TxError TokenInfo) :=
  if instr.data.length < 9 then some (.error .malformedTransferChecked)
  else
    match instr.accounts[1]? with
    | none => none
    | some a1 =>
    match ctx.accountKeys[a1]? with
    | none => none
    | some mint =>
      some (.ok { mint := mint, amount := leUint64 (instr.data.drop 1),
                  decimals := ctx.getMintDecimals mint })

/-- The signer-orientation loop of `buildSwapInfo` (raydium.go:171-184): walk
the pre-token balances; at the FIRST one whose mint equals `mint`, report
whether its owner is a signer, and stop (the Go loop breaks either way). -/
def signerOwnsFirstMintBalance (mint : PubKey) (signers : List PubKey) :
    List TokenBalance → Bool
  | [] => false
  | b :: rest =>
    if b.mint = mint then decide (b.owner ∈ signers)
    else signerOwnsFirstMintBalance mint signers rest

/-- `buildSwapInfo` (raydium.go:157): reject equal mints, else orient the pair
by the owner of the first pre-balance recording the first transfer's mint. -/
def buildSwapInfo (transfer1 transfer2 : TokenInfo) (ctx : TransactionContext) :
    Except TxError SwapInfo :=
  if transfer1.mint = transfer2.mint then .error .degenerateSwap
  else
    if signerOwnsFirstMintBalance transfer1.mint ctx.signers
        ctx.meta.preTokenBalances then
      .ok { protocol := .raydium, tokenIn := transfer1, tokenOut := transfer2 }
    else
      .ok { protocol := .raydium, tokenIn := transfer2, tokenOut := transfer1 }

/-- The `switch` of `ParseInstruction` (raydium.go:36-45) applied to one nested
instruction: `none` = panic, `some none` = no transfer produced (unmatched or
decode error, the Go `continue`), `some (some t)` = decoded transfer. -/
def classifyAndProcess (instr : CompiledInstruction) (ctx : TransactionContext) :
    Option (Option TokenInfo) :=
  match isRaydiumTransfer instr ctx.accountKeys with
  | none => none
  | some true =>
    match processTransfer instr ctx with
    | none => none
    | some (.error _) => some none
    | some (.ok t) => some (some t)
  | some false =>
    match isRaydiumTransferChecked instr ctx.accountKeys with
    | none => none
    | some true =>
      match processTransferChecked instr ctx with
      | none => none
      | some (.error _) => some none
      | some (.ok t) => some (some t)
    | some false => some none

/-- The inner loop of `ParseInstruction` (raydium.go:32-61) over one nested
instruction group, carrying the `currentTransfers` accumulator. -/
def processGroup (ctx : TransactionContext) :
    List CompiledInstruction → List TokenInfo → Option (List SwapInfo)
  | [], _ => some []
  | instr :: rest, currentTransfers =>
    match classifyAndProcess instr ctx with
    | none => none
    | some none => processGroup ctx rest currentTransfers
    | some (some t) =>
      let cur := currentTransfers ++ [t]
      if cur.length = 2 then
        match buildSwapInfo (cur.getD 0 default) (cur.getD 1 default) ctx with
        | .error _ => processGroup ctx rest (cur.drop 2)
        | .ok swap =>
          (processGroup ctx rest (cur.drop 2)).map (fun swaps => swap :: swaps)
      else
        processGroup ctx rest cur

/-- The outer loop of `ParseInstruction` (raydium.go:29-63): process every
inner-instruction group whose tag equals `uint16(instructionIndex)`, with a
fresh accumulator per group, concatenating the produced swaps. -/
def parseGroups (idx16 : Nat) (ctx : TransactionContext) :
    List InnerInstructionSet → Option (List SwapInfo)
  | [] => some []
  | s :: rest =>
    if s.index = idx16 then
      match processGroup ctx s.instructions [] with
      | none => none
      | some swaps => (parseGroups idx16 ctx rest).map (fun more => swaps ++ more)
    else parseGroups idx16 ctx rest

/-- `ParseInstruction` (raydium.go:25): the decode entry point.  The
`instruction` argument is unused by the source body; `uint16(instructionIndex)`
is the index reduced mod 2^16. -/
def ParseInstruction (_instruction : CompiledInstruction) (instructionIndex : Nat)
    (ctx : TransactionContext) : Option (Except TxError (List SwapInfo)) :=
  match parseGroups (instructionIndex % 65536) ctx ctx.meta.innerInstructions with
  | none => none
  | some swaps =>
    if swaps = [] then some (.error .noSwapsFound) else some (.ok swaps)

/-! ### Specification-side view of the pairing discipline -/

/-- The stream of successfully decoded transfers of one nested-instruction
group, in encounter order (`none` = a panic occurred while scanning). -/
def decodedTransfers (ctx : TransactionContext) :
    List CompiledInstruction → Option (List TokenInfo)
  | [] => some []
  | instr :: rest =>
    match classifyAndProcess instr ctx with
    | none => none
    | some none => decodedTransfers ctx rest
    | some (some t) => (decodedTransfers ctx rest).map (fun ts => t :: ts)

/-- Strict consecutive non-overlapping pairing of a transfer stream: the 1st
transfer is assembled with the 2nd, the 3rd with the 4th, and so on; when
assembly rejects a pair both transfers are discarded; an odd trailing transfer
is dropped. -/
def pairSwaps (ctx : TransactionContext) : List TokenInfo → List SwapInfo
  | [] => []
  | [_] => []
  | t1 :: t2 :: rest =>
    match buildSwapInfo t1 t2 ctx with
    | .error _ => pairSwaps ctx rest
    | .ok s => s :: pairSwaps ctx rest

/-- Spec-side view of the outer loop: each matching group contributes the
pairing of its own transfer stream, computed with a fresh accumulator. -/
def groupsSwaps (idx16 : Nat) (ctx : TransactionContext) :
    List InnerInstructionSet → Option (List SwapInfo)
  | [] => some []
  | s :: rest =>
    if s.index = idx16 then
      match decodedTransfers ctx s.instructions with
      | none => none
      | some ts => (groupsSwaps idx16 ctx rest).map (fun more => pairSwaps ctx ts ++ more)
    else groupsSwaps idx16 ctx rest

/-! ### Helper lemmas -/

theorem processGroup_acc (ctx : TransactionContext) (instrs : List CompiledInstruction) :
    processGroup ctx instrs [] = (decodedTransfers ctx instrs).map (pairSwaps ctx) ∧
    ∀ t, processGroup ctx instrs [t] =
      (decodedTransfers ctx instrs).map (fun ts => pairSwaps ctx (t :: ts)) := by
  induction instrs with
  | nil => simp [processGroup, decodedTransfers, pairSwaps]
  | cons instr rest ih =>
    constructor
    · cases h : classifyAndProcess instr ctx with
      | none => simp [processGroup, decodedTransfers, h]
      | some o =>
        cases o with
        | none => simp [processGroup, decodedTransfers, h, ih.1]
        | some t =>
          cases dT : decodedTransfers ctx rest with
          | none => simp [processGroup, decodedTransfers, h, ih.2 t, dT]
          | some ts => simp [processGroup, decodedTransfers, h, ih.2 t, dT]
    · intro t
      cases h : classifyAndProcess instr ctx with
      | none => simp [processGroup, decodedTransfers, h]
      | some o =>
        cases o with
        | none => simp [processGroup, decodedTransfers, h, ih.2 t]
        | some u =>
          cases bs : buildSwapInfo t u ctx with
          | error e =>
            cases dT : decodedTransfers ctx rest with
            | none => simp [processGroup, decodedTransfers, h, ih.1, dT, List.getD, bs, pairSwaps]
            | some ts => simp [processGroup, decodedTransfers, h, ih.1, dT, List.getD, bs, pairSwaps]
          | ok s =>
            cases dT : decodedTransfers ctx rest with
            | none => simp [processGroup, decodedTransfers, h, ih.1, dT, List.getD, bs, pairSwaps]
            | some ts => simp [processGroup, decodedTransfers, h, ih.1, dT, List.getD, bs, pairSwaps]

theorem parseGroups_eq_groupsSwaps (idx16 : Nat) (ctx : TransactionContext)
    (sets : List InnerInstructionSet) :
    parseGroups idx16 ctx sets = groupsSwaps idx16 ctx sets := by
  induction sets with
  | nil => rfl
  | cons s rest ih =>
    by_cases hidx : s.index = idx16
    · cases dT : decodedTransfers ctx s.instructions with
      | none => simp [parseGroups, groupsSwaps, hidx, (processGroup_acc ctx s.instructions).1, dT]
      | some ts => simp [parseGroups, groupsSwaps, hidx, (processGroup_acc ctx s.instructions).1, dT, ih]
    · simp [parseGroups, groupsSwaps, hidx, ih]

theorem buildSwapInfo_error_iff (t1 t2 : TokenInfo) (ctx : TransactionContext) (e : TxError) :
    buildSwapInfo t1 t2 ctx = .error e ↔ t1.mint = t2.mint ∧ e = .degenerateSwap := by
  unfold buildSwapInfo
  by_cases hm : t1.mint = t2.mint
  · simp [hm, eq_comm]
  · cases hb : signerOwnsFirstMintBalance t1.mint ctx.signers ctx.meta.preTokenBalances <;>
      simp [hm, hb]

theorem buildSwapInfo_ok_spec {t1 t2 : TokenInfo} {ctx : TransactionContext} {s : SwapInfo}
    (h : buildSwapInfo t1 t2 ctx = .ok s) :
    t1.mint ≠ t2.mint ∧ s.protocol = .raydium ∧
      ((s.tokenIn = t1 ∧ s.tokenOut = t2) ∨ (s.tokenIn = t2 ∧ s.tokenOut = t1)) := by
  unfold buildSwapInfo at h
  by_cases hm : t1.mint = t2.mint
  · simp [hm] at h
  · refine ⟨hm, ?_⟩
    cases hb : signerOwnsFirstMintBalance t1.mint ctx.signers ctx.meta.preTokenBalances <;>
      simp [hm, hb] at h <;> subst h <;> simp

theorem pairSwaps_mem (ctx : TransactionContext) :
    ∀ ts : List TokenInfo, ∀ s ∈ pairSwaps ctx ts,
      ∃ t1 t2, buildSwapInfo t1 t2 ctx = .ok s
  | [] => by simp [pairSwaps]
  | [t] => by simp [pairSwaps]
  | t1 :: t2 :: rest => by
    intro s hs
    cases h : buildSwapInfo t1 t2 ctx with
    | error e =>
      rw [pairSwaps, h] at hs
      exact pairSwaps_mem ctx rest s hs
    | ok s0 =>
      rw [pairSwaps, h] at hs
      rcases List.mem_cons.mp hs with h1 | h1
      · exact ⟨t1, t2, h1 ▸ h⟩
      · exact pairSwaps_mem ctx rest s h1

theorem groupsSwaps_mem (idx16 : Nat) (ctx : TransactionContext) :
    ∀ sets swaps, groupsSwaps idx16 ctx sets = some swaps →
      ∀ s ∈ swaps, ∃ t1 t2, buildSwapInfo t1 t2 ctx = .ok s := by
  intro sets
  induction sets with
  | nil =>
    intro swaps h s hs
    simp [groupsSwaps] at h
    subst h
    simp at hs
  | cons g rest ih =>
    intro swaps h s hs
    by_cases hidx : g.index = idx16
    · rw [groupsSwaps, if_pos hidx] at h
      cases dT : decodedTransfers ctx g.instructions with
      | none => rw [dT] at h; simp at h
      | some ts =>
        rw [dT] at h
        obtain ⟨more, hmore, rfl⟩ := Option.map_eq_some'.mp h
        rcases List.mem_append.mp hs with h1 | h1
        · exact pairSwaps_mem ctx ts s h1
        · exact ih more hmore s h1
    · rw [groupsSwaps, if_neg hidx] at h
      exact ih swaps h s hs

theorem foldr_base256 (l : List Nat) :
    l.foldr (fun b acc => b + 256 * acc) 0 =
      ∑ i ∈ Finset.range l.length, l.getD i 0 * 256 ^ i := by
  induction l with
  | nil => simp
  | cons b l ih =>
    rw [List.foldr_cons, ih, List.length_cons, Finset.sum_range_succ']
    simp only [List.getD_cons_succ, List.getD_cons_zero, pow_zero, mul_one, Finset.mul_sum]
    conv_lhs => rw [Nat.add_comm]
    congr 1
    apply Finset.sum_congr rfl
    intro i _
    ring

theorem leUint64_eq_sum (bs : List Nat) (h : 8 ≤ bs.length) :
    leUint64 bs = ∑ i ∈ Finset.range 8, bs.getD i 0 * 256 ^ i := by
  unfold leUint64
  rw [foldr_base256]
  have hlen : (bs.take 8).length = 8 := by
    rw [List.length_take]
    omega
  rw [hlen]
  apply Finset.sum_congr rfl
  intro i hi
  have hi8 : i < 8 := Finset.mem_range.mp hi
  congr 1
  rw [List.getD_eq_getElem?_getD, List.getD_eq_getElem?_getD, List.getElem?_take, if_pos hi8]

theorem processTransfer_ok_inv {instr : CompiledInstruction} {ctx : TransactionContext}
    {t : TokenInfo} (h : processTransfer instr ctx = some (.ok t)) :
    9 ≤ instr.data.length ∧ t.amount = leUint64 (instr.data.drop 1) := by
  unfold processTransfer at h
  split at h
  · simp at h
  · next hlen =>
    refine ⟨by omega, ?_⟩
    split at h
    · simp at h
    · split at h
      · simp at h
      · split at h
        · simp at h
        · split at h
          · simp at h
          · split at h
            · simp at h
            · split at h
              · simp at h
              · simp at h
                subst h
                simp [List.drop_one]

theorem processTransferChecked_ok_inv {instr : CompiledInstruction} {ctx : TransactionContext}
    {t : TokenInfo} (h : processTransferChecked instr ctx = some (.ok t)) :
    9 ≤ instr.data.length ∧ t.amount = leUint64 (instr.data.drop 1) := by
  unfold processTransferChecked at h
  split at h
  · simp at h
  · next hlen =>
    refine ⟨by omega, ?_⟩
    split at h
    · simp at h
    · split at h
      · simp at h
      · simp at h
        subst h
        simp [List.drop_one]

theorem signerOwns_eq_find? (mint : PubKey) (signers : List PubKey) (bs : List TokenBalance) :
    signerOwnsFirstMintBalance mint signers bs =
      match bs.find? (fun b => decide (b.mint = mint)) with
      | some b => decide (b.owner ∈ signers)
      | none => false := by
  induction bs with
  | nil => rfl
  | cons b rest ih =>
    by_cases hb : b.mint = mint
    · rw [signerOwnsFirstMintBalance, if_pos hb,
        List.find?_cons_of_pos _ (by simpa using hb)]
    · rw [signerOwnsFirstMintBalance, if_neg hb,
        List.find?_cons_of_neg _ (by simpa using hb), ih]

/-- The matching condition of the `findTokenMint` scan, as a predicate on one
balance entry (the `getD` default is never consulted when the entry's account
index is within the table). -/
def balanceMatches (accountKeys : List PubKey) (source dest : PubKey)
    (b : TokenBalance) : Bool :=
  decide (accountKeys.getD b.accountIndex zeroPubKey = source ∨
          accountKeys.getD b.accountIndex zeroPubKey = dest)

theorem findTokenMintLoop_eq_find? (source dest : PubKey) (keys : List PubKey) :
    ∀ bs : List TokenBalance, (∀ b ∈ bs, b.accountIndex < keys.length) →
      findTokenMintLoop source dest keys bs =
        some (match bs.find? (balanceMatches keys source dest) with
              | some b => b.mint
              | none => zeroPubKey) := by
  intro bs
  induction bs with
  | nil => intro _; rfl
  | cons b rest ih =>
    intro hv
    have hidx : b.accountIndex < keys.length := hv b (List.mem_cons_self b rest)
    have hkey : keys[b.accountIndex]? = some keys[b.accountIndex] :=
      List.getElem?_eq_getElem hidx
    have hgetD : keys.getD b.accountIndex zeroPubKey = keys[b.accountIndex] := by
      rw [List.getD_eq_getElem?_getD, hkey, Option.getD_some]
    by_cases hm : keys[b.accountIndex] = source ∨ keys[b.accountIndex] = dest
    · rw [findTokenMintLoop, hkey, List.find?_cons_of_pos _
        (by simp only [balanceMatches, hgetD, decide_eq_true_eq]; exact hm)]
      simp [hm]
    · rw [findTokenMintLoop, hkey, List.find?_cons_of_neg _
        (by simp only [balanceMatches, hgetD, decide_eq_true_eq]; exact hm)]
      simp only [hm, if_false]
      exact ih (fun b' hb' => hv b' (List.mem_cons_of_mem b hb'))

theorem parseGroups_all_empty (idx16 : Nat) (ctx : TransactionContext) :
    ∀ sets : List InnerInstructionSet,
      (∀ s ∈ sets, s.index = idx16 → s.instructions = []) →
      parseGroups idx16 ctx sets = some [] := by
  intro sets
  induction sets with
  | nil => intro _; rfl
  | cons g rest ih =>
    intro h
    have hrest := ih (fun s hs => h s (List.mem_cons_of_mem g hs))
    by_cases hidx : g.index = idx16
    · have hinstr : g.instructions = [] := h g (List.mem_cons_self g rest) hidx
      rw [parseGroups, if_pos hidx, hinstr]
      simp [processGroup, hrest]
    · rw [parseGroups, if_neg hidx]
      exact hrest

/-! ### Concrete inputs used by witnesses and counterexamples -/

def srcAcc : PubKey := List.replicate 32 1
def dstAcc : PubKey := List.replicate 32 2
def mintA : PubKey := List.replicate 32 3
def mintB : PubKey := List.replicate 32 4
def ownerS : PubKey := List.replicate 32 5
def ownerX : PubKey := List.replicate 32 6

/-- A nested plain transfer: opcode 3, amount 100, source/dest at table 0/1. -/
def wPlainInstr : CompiledInstruction :=
  { programIDIndex := 2, accounts := [0, 1, 2], data := [3, 100, 0, 0, 0, 0, 0, 0, 0] }

/-- A nested checked transfer: opcode 12, amount 250, mint at table index 3. -/
def wCheckedInstr : CompiledInstruction :=
  { programIDIndex := 2, accounts := [0, 3, 1, 2], data := [12, 250, 0, 0, 0, 0, 0, 0, 0] }

/-- A well-formed context in which the two transfers above assemble into one
swap oriented with the plain transfer as input (its pre-balance owner signs). -/
def wCtx : TransactionContext :=
  { accountKeys := [srcAcc, dstAcc, tokenProgramID, mintB]
    meta := { innerInstructions := [{ index := 0, instructions := [wPlainInstr, wCheckedInstr] }]
              preTokenBalances := [{ accountIndex := 0, mint := mintA, owner := ownerS }]
              postTokenBalances := [] }
    signers := [ownerS]
    getMintDecimals := fun _ => 6 }

def wTokenA : TokenInfo := { mint := mintA, amount := 100, decimals := 6 }
def wTokenB : TokenInfo := { mint := mintB, amount := 250, decimals := 6 }
def wSwap : SwapInfo := { protocol := .raydium, tokenIn := wTokenA, tokenOut := wTokenB }

def cexT1 : TokenInfo := { mint := mintA, amount := 1, decimals := 0 }
def cexT2 : TokenInfo := { mint := mintB, amount := 2, decimals := 0 }

/-- Two pre-balances record `mintA`; only the SECOND one is signer-owned. -/
def cexCtx3 : TransactionContext :=
  { accountKeys := []
    meta := { innerInstructions := []
              preTokenBalances := [{ accountIndex := 0, mint := mintA, owner := ownerX },
                                   { accountIndex := 0, mint := mintA, owner := ownerS }]
              postTokenBalances := [] }
    signers := [ownerS]
    getMintDecimals := fun _ => 0 }

/-- Enough accounts and data to pass both length checks, but a program index
pointing outside an empty account table. -/
def cexInstr8 : CompiledInstruction :=
  { programIDIndex := 0, accounts := [0, 0, 0, 0], data := [3, 0, 0, 0, 0, 0, 0, 0, 0] }

/-- A plain transfer whose matching balance snapshot records the zero mint. -/
def w10Instr : CompiledInstruction :=
  { programIDIndex := 0, accounts := [0, 1, 0], data := [3, 7, 0, 0, 0, 0, 0, 0, 0] }

def wCtx10 : TransactionContext :=
  { accountKeys := [srcAcc, dstAcc]
    meta := { innerInstructions := []
              preTokenBalances := [{ accountIndex := 0, mint := zeroPubKey, owner := ownerS }]
              postTokenBalances := [] }
    signers := []
    getMintDecimals := fun _ => 0 }

/-! ### Claims -/

/-- C1: within every nested-instruction group whose tag equals the outer
instruction index, successfully decoded transfers are paired strictly
consecutively and non-overlapping (1st with 2nd, 3rd with 4th); when assembly
rejects a pair both transfers are discarded and the next transfer starts a
fresh pair; an odd trailing transfer is discarded, and no pairing crosses a
group boundary (each group starts with an empty accumulator). -/
theorem claim_C1_strict_consecutive_pairing (idx16 : Nat) (ctx : TransactionContext) :
    (∀ instrs : List CompiledInstruction,
        processGroup ctx instrs [] = (decodedTransfers ctx instrs).map (pairSwaps ctx)) ∧
    (∀ sets : List InnerInstructionSet,
        parseGroups idx16 ctx sets = groupsSwaps idx16 ctx sets) :=
  ⟨fun instrs => (processGroup_acc ctx instrs).1,
   fun sets => parseGroups_eq_groupsSwaps idx16 ctx sets⟩

/-- C2: every `SwapInfo` returned by the decode entry point has
`tokenIn.mint ≠ tokenOut.mint`. -/
theorem claim_C2_distinct_mints (instruction : CompiledInstruction) (idx : Nat)
    (ctx : TransactionContext) (swaps : List SwapInfo)
    (h : ParseInstruction instruction idx ctx = some (.ok swaps)) :
    ∀ s ∈ swaps, s.tokenIn.mint ≠ s.tokenOut.mint := by
  intro s hs
  unfold ParseInstruction at h
  cases hpg : parseGroups (idx % 65536) ctx ctx.meta.innerInstructions with
  | none => rw [hpg] at h; simp at h
  | some sw =>
    rw [hpg] at h
    have h' : (if sw = [] then some (Except.error TxError.noSwapsFound)
        else some (Except.ok sw)) = some (Except.ok swaps) := h
    by_cases hnil : sw = []
    · rw [if_pos hnil] at h'; simp at h'
    · rw [if_neg hnil] at h'
      simp only [Option.some.injEq, Except.ok.injEq] at h'
      subst h'
      rw [parseGroups_eq_groupsSwaps] at hpg
      obtain ⟨t1, t2, hb⟩ := groupsSwaps_mem _ ctx _ _ hpg s hs
      obtain ⟨hne, _, horient⟩ := buildSwapInfo_ok_spec hb
      rcases horient with ⟨h1, h2⟩ | ⟨h1, h2⟩ <;> rw [h1, h2]
      · exact hne
      · exact hne.symm

theorem claim_C2_witness : wSwap.tokenIn.mint ≠ wSwap.tokenOut.mint :=
  claim_C2_distinct_mints wPlainInstr 0 wCtx [wSwap] rfl wSwap (List.mem_singleton.mpr rfl)

/-- C3 as stated is false: the orientation check does not consult every
pre-balance whose mint matches the first transfer; it consults only the FIRST
such pre-balance.  In `cexCtx3` a signer-owned matching balance exists (in
second position), yet the produced swap has `tokenIn = second transfer`. -/
theorem claim_C3_counterexample :
    ¬ (∀ (t1 t2 : TokenInfo) (ctx : TransactionContext), t1.mint ≠ t2.mint →
        (∃ b ∈ ctx.meta.preTokenBalances, b.mint = t1.mint ∧ b.owner ∈ ctx.signers) →
        buildSwapInfo t1 t2 ctx =
          .ok { protocol := .raydium, tokenIn := t1, tokenOut := t2 }) := by
  intro hcl
  have hres := hcl cexT1 cexT2 cexCtx3 (by decide) (by decide)
  rw [show buildSwapInfo cexT1 cexT2 cexCtx3 =
        .ok { protocol := .raydium, tokenIn := cexT2, tokenOut := cexT1 } from rfl] at hres
  have h2 := congrArg SwapInfo.tokenIn (Except.ok.inj hres)
  exact absurd h2 (by decide)

/-- C3 (amended): orientation is decided by the FIRST pre-execution balance
snapshot whose mint equals the first transfer's mint — if its recorded owner
is a signer then `tokenIn` is the first transfer, otherwise (owner not a
signer, or no matching snapshot at all) `tokenIn` is the second transfer. -/
theorem claim_C3_orientation_first_balance (t1 t2 : TokenInfo) (ctx : TransactionContext)
    (hmint : t1.mint ≠ t2.mint) :
    (∀ b, ctx.meta.preTokenBalances.find? (fun b => decide (b.mint = t1.mint)) = some b →
        ((b.owner ∈ ctx.signers →
            buildSwapInfo t1 t2 ctx =
              .ok { protocol := .raydium, tokenIn := t1, tokenOut := t2 }) ∧
         (b.owner ∉ ctx.signers →
            buildSwapInfo t1 t2 ctx =
              .ok { protocol := .raydium, tokenIn := t2, tokenOut := t1 }))) ∧
    (ctx.meta.preTokenBalances.find? (fun b => decide (b.mint = t1.mint)) = none →
        buildSwapInfo t1 t2 ctx =
          .ok { protocol := .raydium, tokenIn := t2, tokenOut := t1 }) := by
  constructor
  · intro b hfind
    constructor
    · intro hmem
      have hso : signerOwnsFirstMintBalance t1.mint ctx.signers
          ctx.meta.preTokenBalances = true := by
        rw [signerOwns_eq_find?, hfind]
        simpa using hmem
      unfold buildSwapInfo
      rw [if_neg hmint]
      simp [hso]
    · intro hmem
      have hso : signerOwnsFirstMintBalance t1.mint ctx.signers
          ctx.meta.preTokenBalances = false := by
        rw [signerOwns_eq_find?, hfind]
        simpa using hmem
      unfold buildSwapInfo
      rw [if_neg hmint]
      simp [hso]
  · intro hfind
    have hso : signerOwnsFirstMintBalance t1.mint ctx.signers
        ctx.meta.preTokenBalances = false := by
      rw [signerOwns_eq_find?, hfind]
    unfold buildSwapInfo
    rw [if_neg hmint]
    simp [hso]

theorem claim_C3_witness :
    buildSwapInfo cexT1 cexT2 wCtx =
      .ok { protocol := .raydium, tokenIn := cexT1, tokenOut := cexT2 } :=
  ((claim_C3_orientation_first_balance cexT1 cexT2 wCtx (by decide)).1
    { accountIndex := 0, mint := mintA, owner := ownerS } rfl).1 (by decide)

/-- C4: the plain-transfer classifier answers true exactly when the
instruction has ≥3 account references, ≥9 data bytes, the account-table entry
at its program index is the canonical token program, and `data[0] = 3`; the
checked-transfer classifier answers true exactly when it has ≥4 account
references, ≥9 data bytes, the program entry is the token program or its 2022
variant, and `data[0] = 12`. -/
theorem claim_C4_classifier_conditions (instr : CompiledInstruction)
    (accountKeys : List PubKey) :
    (isRaydiumTransfer instr accountKeys = some true ↔
      3 ≤ instr.accounts.length ∧ 9 ≤ instr.data.length ∧
      accountKeys[instr.programIDIndex]? = some tokenProgramID ∧
      instr.data.getD 0 0 = 3) ∧
    (isRaydiumTransferChecked instr accountKeys = some true ↔
      4 ≤ instr.accounts.length ∧ 9 ≤ instr.data.length ∧
      (accountKeys[instr.programIDIndex]? = some tokenProgramID ∨
       accountKeys[instr.programIDIndex]? = some token2022ProgramID) ∧
      instr.data.getD 0 0 = 12) := by
  constructor
  · unfold isRaydiumTransfer
    split
    · next hlen =>
      constructor
      · intro h; simp at h
      · rintro ⟨h1, h2, -, -⟩
        rcases hlen with h | h <;> omega
    · next hlen =>
      push_neg at hlen
      split
      · next heq =>
        constructor
        · intro h; simp at h
        · rintro ⟨-, -, hc, -⟩
          rw [heq] at hc
          exact Option.noConfusion hc
      · next p heq =>
        rw [heq]
        by_cases hp : p = tokenProgramID
        · subst hp
          rw [if_neg (by simp)]
          simp only [Option.some.injEq, decide_eq_true_eq]
          constructor
          · intro h; exact ⟨hlen.1, hlen.2, by trivial, h⟩
          · rintro ⟨-, -, -, h⟩; exact h
        · rw [if_pos hp]
          constructor
          · intro h; simp at h
          · rintro ⟨-, -, hc, -⟩
            injection hc with hc
            exact absurd hc hp
  · unfold isRaydiumTransferChecked
    split
    · next hlen =>
      constructor
      · intro h; simp at h
      · rintro ⟨h1, h2, -, -⟩
        rcases hlen with h | h <;> omega
    · next hlen =>
      push_neg at hlen
      split
      · next heq =>
        constructor
        · intro h; simp at h
        · rintro ⟨-, -, hc, -⟩
          rcases hc with hc | hc <;> rw [heq] at hc <;> exact Option.noConfusion hc
      · next p heq =>
        rw [heq]
        by_cases hp : p = tokenProgramID ∨ p = token2022ProgramID
        · rw [if_neg (by tauto)]
          simp only [Option.some.injEq, decide_eq_true_eq]
          constructor
          · intro h
            refine ⟨hlen.1, hlen.2, ?_, h⟩
            rcases hp with h' | h'
            · exact Or.inl (by rw [h'])
            · exact Or.inr (by rw [h'])
          · rintro ⟨-, -, -, h⟩; exact h
        · rw [if_pos (by push_neg at hp; exact hp)]
          constructor
          · intro h; simp at h
          · rintro ⟨-, -, hc, -⟩
            rcases hc with hc | hc <;> injection hc with hc
            · exact absurd (Or.inl hc) hp
            · exact absurd (Or.inr hc) hp

/-- C5: every transfer decoded by the plain or checked path carries the
unsigned little-endian 64-bit value of data bytes 1..8 as its amount. -/
theorem claim_C5_amount_little_endian (instr : CompiledInstruction)
    (ctx : TransactionContext) (t : TokenInfo)
    (h : processTransfer instr ctx = some (.ok t) ∨
         processTransferChecked instr ctx = some (.ok t)) :
    t.amount = ∑ i ∈ Finset.range 8, instr.data.getD (1 + i) 0 * 256 ^ i := by
  have key : 9 ≤ instr.data.length ∧ t.amount = leUint64 (instr.data.drop 1) := by
    rcases h with h | h
    · exact processTransfer_ok_inv h
    · exact processTransferChecked_ok_inv h
  obtain ⟨hlen, hamt⟩ := key
  rw [hamt, leUint64_eq_sum _ (by rw [List.length_drop]; omega)]
  apply Finset.sum_congr rfl
  intro i _
  congr 1
  rw [List.getD_eq_getElem?_getD, List.getD_eq_getElem?_getD, List.getElem?_drop]

theorem claim_C5_witness :
    wTokenA.amount = ∑ i ∈ Finset.range 8, wPlainInstr.data.getD (1 + i) 0 * 256 ^ i :=
  claim_C5_amount_little_endian wPlainInstr wCtx wTokenA (Or.inl rfl)

/-- C6: given valid balance account indices, the mint resolver returns the
mint of the first snapshot (pre-execution then post-execution, in order) whose
account matches the source or the destination, and the zero not-found
indicator when none matches; when the indicator comes back the caller rejects
the transfer as mint-unresolved, which the group scan skips (it does not
abort: the classified instruction yields `some none`, not `none`). -/
theorem claim_C6_mint_resolver (source dest : PubKey) (ctx : TransactionContext)
    (hvalid : ∀ b ∈ ctx.meta.preTokenBalances ++ ctx.meta.postTokenBalances,
        b.accountIndex < ctx.accountKeys.length) :
    findTokenMint source dest ctx =
      some (match (ctx.meta.preTokenBalances ++ ctx.meta.postTokenBalances).find?
              (balanceMatches ctx.accountKeys source dest) with
            | some b => b.mint
            | none => zeroPubKey) ∧
    (∀ (instr : CompiledInstruction) (a0 a1 : Nat),
        findTokenMint source dest ctx = some zeroPubKey →
        9 ≤ instr.data.length →
        instr.accounts[0]? = some a0 → ctx.accountKeys[a0]? = some source →
        instr.accounts[1]? = some a1 → ctx.accountKeys[a1]? = some dest →
        processTransfer instr ctx = some (.error .mintUnresolved) ∧
        (isRaydiumTransfer instr ctx.accountKeys = some true →
          classifyAndProcess instr ctx = some none)) := by
  constructor
  · exact findTokenMintLoop_eq_find? source dest ctx.accountKeys _ hvalid
  · intro instr a0 a1 hzero hlen h0 hs0 h1 hs1
    have hpt : processTransfer instr ctx = some (.error .mintUnresolved) := by
      unfold processTransfer
      rw [if_neg (show ¬ instr.data.length < 9 by omega)]
      simp [h0, hs0, h1, hs1, hzero]
    refine ⟨hpt, ?_⟩
    intro hplain
    unfold classifyAndProcess
    simp [hplain, hpt]

theorem claim_C6_witness : findTokenMint srcAcc dstAcc wCtx = some mintA :=
  ((claim_C6_mint_resolver srcAcc dstAcc wCtx (by decide)).1).trans rfl

/-- C7: the decode entry point returns the no-swaps error exactly when the
assembled swap sequence is empty; a successful decode is never empty; and an
outer instruction whose matching groups are all empty (in particular, one with
no matching group) yields the error. -/
theorem claim_C7_no_swaps_found (instruction : CompiledInstruction) (idx : Nat)
    (ctx : TransactionContext) :
    (ParseInstruction instruction idx ctx = some (.error .noSwapsFound) ↔
        parseGroups (idx % 65536) ctx ctx.meta.innerInstructions = some []) ∧
    (∀ e, ParseInstruction instruction idx ctx = some (.error e) → e = .noSwapsFound) ∧
    (∀ swaps, ParseInstruction instruction idx ctx = some (.ok swaps) → swaps ≠ []) ∧
    ((∀ s ∈ ctx.meta.innerInstructions, s.index = idx % 65536 → s.instructions = []) →
        ParseInstruction instruction idx ctx = some (.error .noSwapsFound)) := by
  cases hpg : parseGroups (idx % 65536) ctx ctx.meta.innerInstructions with
  | none =>
    refine ⟨⟨?_, ?_⟩, ?_, ?_, ?_⟩
    · intro h; unfold ParseInstruction at h; rw [hpg] at h; exact Option.noConfusion h
    · intro h; exact Option.noConfusion h
    · intro e h; unfold ParseInstruction at h; rw [hpg] at h; exact Option.noConfusion h
    · intro swaps h; unfold ParseInstruction at h; rw [hpg] at h; exact Option.noConfusion h
    · intro hall
      rw [parseGroups_all_empty _ _ _ hall] at hpg
      exact Option.noConfusion hpg
  | some sw =>
    have hP : ParseInstruction instruction idx ctx =
        (if sw = [] then some (Except.error TxError.noSwapsFound)
         else some (Except.ok sw)) := by
      unfold ParseInstruction
      rw [hpg]
    by_cases hnil : sw = []
    · subst hnil
      rw [if_pos rfl] at hP
      refine ⟨⟨?_, ?_⟩, ?_, ?_, ?_⟩
      · intro _; rfl
      · intro _; exact hP
      · intro e h
        rw [hP] at h
        exact (Except.error.inj (Option.some.inj h)).symm
      · intro swaps h
        rw [hP] at h
        exact absurd (Option.some.inj h) (by simp)
      · intro _; exact hP
    · rw [if_neg hnil] at hP
      refine ⟨⟨?_, ?_⟩, ?_, ?_, ?_⟩
      · intro h
        rw [hP] at h
        exact absurd (Option.some.inj h) (by simp)
      · intro h
        exact absurd (Option.some.inj h) hnil
      · intro e h
        rw [hP] at h
        exact absurd (Option.some.inj h) (by simp)
      · intro swaps h
        rw [hP] at h
        have := Except.ok.inj (Option.some.inj h)
        rw [← this]
        exact hnil
      · intro hall
        have := parseGroups_all_empty (idx % 65536) ctx ctx.meta.innerInstructions hall
        rw [hpg] at this
        exact absurd (Option.some.inj this) hnil

theorem claim_C7_witness : ParseInstruction wPlainInstr 1 wCtx = some (.error .noSwapsFound) :=
  (claim_C7_no_swaps_found wPlainInstr 1 wCtx).2.2.2 (by decide)

/-- C8 as stated is false: with enough accounts and data bytes to pass the
length prechecks but a program index outside the account table, both
classifiers hit an out-of-range table lookup (a Go runtime panic, `none` in
the embedding) instead of returning a boolean. -/
theorem claim_C8_counterexample :
    ¬ (∀ (instr : CompiledInstruction) (accountKeys : List PubKey),
        (isRaydiumTransfer instr accountKeys).isSome ∧
        (isRaydiumTransferChecked instr accountKeys).isSome) := by
  intro hcl
  have h := (hcl cexInstr8 []).1
  rw [show isRaydiumTransfer cexInstr8 [] = none from rfl] at h
  simp at h

/-- C8 (amended): the classifiers are total — returning a boolean with
malformed/short instructions simply failing the match — provided the
instruction's program index lies inside the account table; an instruction
short enough to fail a classifier's length precheck is also answered (false)
without consulting the table. -/
theorem claim_C8_classifiers_total (instr : CompiledInstruction)
    (accountKeys : List PubKey) :
    (instr.programIDIndex < accountKeys.length →
        (isRaydiumTransfer instr accountKeys).isSome ∧
        (isRaydiumTransferChecked instr accountKeys).isSome) ∧
    (instr.accounts.length < 3 ∨ instr.data.length < 9 →
        isRaydiumTransfer instr accountKeys = some false) ∧
    (instr.accounts.length < 4 ∨ instr.data.length < 9 →
        isRaydiumTransferChecked instr accountKeys = some false) := by
  refine ⟨?_, ?_, ?_⟩
  · intro hlt
    have hk : accountKeys[instr.programIDIndex]? = some accountKeys[instr.programIDIndex] :=
      List.getElem?_eq_getElem hlt
    constructor
    · unfold isRaydiumTransfer
      split
      · simp
      · simp only [hk]
        split <;> simp
    · unfold isRaydiumTransferChecked
      split
      · simp
      · simp only [hk]
        split <;> simp
  · intro hshort
    unfold isRaydiumTransfer
    rw [if_pos hshort]
  · intro hshort
    unfold isRaydiumTransferChecked
    rw [if_pos hshort]

theorem claim_C8_witness :
    (isRaydiumTransfer wPlainInstr wCtx.accountKeys).isSome ∧
    (isRaydiumTransferChecked wPlainInstr wCtx.accountKeys).isSome :=
  (claim_C8_classifiers_total wPlainInstr wCtx.accountKeys).1 (by decide)

/-- C9: the swap assembler errs exactly on equal mints (and then with the
degenerate-swap error); on distinct mints it always returns one swap whose
two legs are the two input transfers in one of the two orders. -/
theorem claim_C9_assembler_total (t1 t2 : TokenInfo) (ctx : TransactionContext) :
    ((∃ e, buildSwapInfo t1 t2 ctx = .error e) ↔ t1.mint = t2.mint) ∧
    (t1.mint = t2.mint → buildSwapInfo t1 t2 ctx = .error .degenerateSwap) ∧
    (t1.mint ≠ t2.mint →
      ∃ s, buildSwapInfo t1 t2 ctx = .ok s ∧ s.protocol = .raydium ∧
        ((s.tokenIn = t1 ∧ s.tokenOut = t2) ∨ (s.tokenIn = t2 ∧ s.tokenOut = t1))) := by
  refine ⟨⟨?_, ?_⟩, ?_, ?_⟩
  · rintro ⟨e, he⟩
    exact ((buildSwapInfo_error_iff t1 t2 ctx e).mp he).1
  · intro hm
    exact ⟨.degenerateSwap, (buildSwapInfo_error_iff t1 t2 ctx _).mpr ⟨hm, rfl⟩⟩
  · intro hm
    exact (buildSwapInfo_error_iff t1 t2 ctx _).mpr ⟨hm, rfl⟩
  · intro hm
    cases hb : buildSwapInfo t1 t2 ctx with
    | error e => exact absurd ((buildSwapInfo_error_iff t1 t2 ctx e).mp hb).1 hm
    | ok s =>
      obtain ⟨-, hp, ho⟩ := buildSwapInfo_ok_spec hb
      exact ⟨s, rfl, hp, ho⟩

theorem claim_C9_witness :
    ∃ s, buildSwapInfo wTokenA wTokenB wCtx = .ok s ∧ s.protocol = .raydium ∧
      ((s.tokenIn = wTokenA ∧ s.tokenOut = wTokenB) ∨
       (s.tokenIn = wTokenB ∧ s.tokenOut = wTokenA)) :=
  (claim_C9_assembler_total wTokenA wTokenB wCtx).2.2 (by decide)

/-- C10: the resolver's not-found indicator is the all-zero key, and a first
matching snapshot that itself records the all-zero mint produces exactly the
same indicator, so the decoder rejects that transfer as mint-unresolved
exactly as if no snapshot had matched. -/
theorem claim_C10_zero_mint_sentinel (source dest : PubKey) (ctx : TransactionContext)
    (hvalid : ∀ b ∈ ctx.meta.preTokenBalances ++ ctx.meta.postTokenBalances,
        b.accountIndex < ctx.accountKeys.length) :
    ((ctx.meta.preTokenBalances ++ ctx.meta.postTokenBalances).find?
        (balanceMatches ctx.accountKeys source dest) = none →
      findTokenMint source dest ctx = some zeroPubKey) ∧
    (∀ b, (ctx.meta.preTokenBalances ++ ctx.meta.postTokenBalances).find?
        (balanceMatches ctx.accountKeys source dest) = some b → b.mint = zeroPubKey →
      findTokenMint source dest ctx = some zeroPubKey) ∧
    (∀ (instr : CompiledInstruction) (a0 a1 : Nat),
        findTokenMint source dest ctx = some zeroPubKey →
        9 ≤ instr.data.length →
        instr.accounts[0]? = some a0 → ctx.accountKeys[a0]? = some source →
        instr.accounts[1]? = some a1 → ctx.accountKeys[a1]? = some dest →
        processTransfer instr ctx = some (.error .mintUnresolved)) := by
  have hfind := findTokenMintLoop_eq_find? source dest ctx.accountKeys _ hvalid
  refine ⟨?_, ?_, ?_⟩
  · intro hnone
    unfold findTokenMint
    rw [hfind, hnone]
  · intro b hsome hmint
    unfold findTokenMint
    rw [hfind, hsome]
    simp [hmint]
  · intro instr a0 a1 hzero hlen h0 hs0 h1 hs1
    unfold processTransfer
    rw [if_neg (show ¬ instr.data.length < 9 by omega)]
    simp [h0, hs0, h1, hs1, hzero]

theorem claim_C10_witness : processTransfer w10Instr wCtx10 = some (.error .mintUnresolved) :=
  (claim_C10_zero_mint_sentinel srcAcc dstAcc wCtx10 (by decide)).2.2
    w10Instr 0 1 rfl (by decide) rfl rfl rfl rfl
